import Mathlib

set_option linter.unusedVariables false

/- Shallow embedding of src/submodule.py (vlotorev/zuul-tools).

   Pure functions of the source become Lean functions; the Python library
   routines the source calls (urllib.parse.urlparse, pathlib.PurePath,
   configparser.ConfigParser, str.split / str.strip / str.lower) are modelled
   below from their documented behaviour, restricted to the ASCII text the
   tool handles.  Filesystem and subprocess effects are modelled as an
   explicit trace of operations issued to a world function (see `Op` below). -/

/-- ASCII model of Python's characterwise str.lower (hosts, schemes and
configparser option names in this tool are ASCII). -/
def asciiLower (c : Char) : Char :=
  match c with
  | 'A' => 'a'
  | 'B' => 'b'
  | 'C' => 'c'
  | 'D' => 'd'
  | 'E' => 'e'
  | 'F' => 'f'
  | 'G' => 'g'
  | 'H' => 'h'
  | 'I' => 'i'
  | 'J' => 'j'
  | 'K' => 'k'
  | 'L' => 'l'
  | 'M' => 'm'
  | 'N' => 'n'
  | 'O' => 'o'
  | 'P' => 'p'
  | 'Q' => 'q'
  | 'R' => 'r'
  | 'S' => 's'
  | 'T' => 't'
  | 'U' => 'u'
  | 'V' => 'v'
  | 'W' => 'w'
  | 'X' => 'x'
  | 'Y' => 'y'
  | 'Z' => 'z'
  | c => c

/-- Python str whitespace characters (space, tab, newline, cr, vtab, ff). -/
def isSpaceChar (c : Char) : Bool :=
  c == ' ' || c == '\t' || c == '\n' || c == '\r' || c == '\x0b' || c == '\x0c'

/-- Model of Python str.strip() on a character list. -/
def pyStripChars (cs : List Char) : List Char :=
  ((cs.dropWhile isSpaceChar).reverse.dropWhile isSpaceChar).reverse

/-- Model of Python str.rstrip() on a character list. -/
def rstripWsChars (cs : List Char) : List Char :=
  (cs.reverse.dropWhile isSpaceChar).reverse

/-- Whether `needle` occurs at the start of `hay` (Python str.startswith). -/
def isPre : List Char → List Char → Bool
  | [], _ => true
  | _ :: _, [] => false
  | a :: as, b :: bs => a == b && isPre as bs

/-- Whether `needle` occurs anywhere in `hay` (Python `sub in s`). -/
def hasSub : List Char → List Char → Bool
  | [], needle => isPre needle []
  | c :: t, needle => isPre needle (c :: t) || hasSub t needle

/-- Python `sub in s` on strings. -/
def strHasSub (s sub : String) : Bool := hasSub s.data sub.data

/-- Python s.startswith(p) on strings. -/
def pyStartsWith (s p : String) : Bool := isPre p.data s.data

/-- Python str.split(sep) with a one-character separator: splits on every
occurrence, keeping empty pieces. -/
def splitChars (sep : Char) : List Char → List (List Char)
  | [] => [[]]
  | c :: rest =>
    let r := splitChars sep rest
    if c == sep then [] :: r
    else
      match r with
      | [] => [[c]]
      | h :: t => (c :: h) :: t

/-- Python s.split(sep) on strings (single-character separator). -/
def pySplit (s : String) (sep : Char) : List String :=
  (splitChars sep s.data).map String.mk

/-- Python str.split() (no argument): split on whitespace runs, no empties. -/
def splitWsAux : List Char → List Char → List (List Char)
  | [], acc => if acc.isEmpty then [] else [acc.reverse]
  | c :: rest, acc =>
    if isSpaceChar c then
      if acc.isEmpty then splitWsAux rest [] else acc.reverse :: splitWsAux rest []
    else splitWsAux rest (c :: acc)

/-- Last whitespace-separated token of a string: Python s.split()[-1],
none when the split is empty (IndexError). -/
def lastWsToken (s : String) : Option String :=
  ((splitWsAux s.data []).getLast?).map String.mk

/-- Python s.replace(chr(34), ""): drop every double-quote character. -/
def stripQuotes (s : String) : String :=
  String.mk (s.data.filter (fun c => c != '"'))

/- ---------------------------------------------------------------------
   urllib.parse.urlparse model (the components url2canonical_name reads).
   --------------------------------------------------------------------- -/

/-- Characters allowed in a URL scheme (urllib scheme_chars). -/
def schemeChar (c : Char) : Bool :=
  c.isAlpha || c.isDigit || c == '+' || c == '-' || c == '.'

/-- Split off `scheme:` as urlsplit does: the text before the first ':' is a
scheme when it is nonempty, starts with an ASCII letter and consists of
scheme characters; the scheme is lowercased. -/
def splitScheme (cs : List Char) : List Char × List Char :=
  let pre := cs.takeWhile (fun c => c != ':')
  if pre.length < cs.length ∧ pre ≠ [] ∧
      (match pre with | c :: _ => c.isAlpha | [] => false) = true ∧
      pre.all schemeChar = true then
    (pre.map asciiLower, cs.drop (pre.length + 1))
  else ([], cs)

/-- After the scheme, a '//' introduces the netloc, which extends to the
first '/', '?' or '#' (urllib _splitnetloc). -/
def netlocOf (cs : List Char) : List Char × List Char :=
  if isPre ['/', '/'] cs then
    let body := cs.drop 2
    let nl := body.takeWhile (fun c => !(c == '/' || c == '?' || c == '#'))
    (nl, body.drop nl.length)
  else ([], cs)

/-- urllib _splitparams: called when ';' is present; drops the ;params of the
last path segment. -/
def splitParamsChars (cs : List Char) : List Char :=
  if cs.contains '/' then
    let tailSeg := (cs.reverse.takeWhile (fun c => c != '/')).reverse
    if tailSeg.contains ';' then
      cs.take (cs.length - tailSeg.length) ++ tailSeg.takeWhile (fun c => c != ';')
    else cs
  else cs.takeWhile (fun c => c != ';')

/-- Strip the parameter part from the path, as urlparse does on top of
urlsplit. -/
def pathParamsSplit (cs : List Char) : List Char :=
  if cs.contains ';' then splitParamsChars cs else cs

/-- The components of urllib.parse.urlparse that the source reads. -/
structure UrlParts where
  scheme : String
  netloc : String
  path : String
deriving DecidableEq

/-- Model of urllib.parse.urlparse: scheme split, netloc split, fragment and
query dropped, ;params stripped from the last path segment. -/
def urlparse (s : String) : UrlParts :=
  let sr := splitScheme s.data
  let nr := netlocOf sr.2
  let path := pathParamsSplit ((nr.2.takeWhile (fun c => c != '#')).takeWhile (fun c => c != '?'))
  ⟨String.mk sr.1, String.mk nr.1, String.mk path⟩

/-- The raw (not lowercased) host of a netloc: urllib drops userinfo up to
the last '@', then either takes the [bracketed] IPv6 host or cuts at the
port ':' separator. -/
def rawHostChars (netloc : List Char) : List Char :=
  let hostinfo := (netloc.reverse.takeWhile (fun c => c != '@')).reverse
  if hostinfo.contains '[' then
    ((hostinfo.dropWhile (fun c => c != '[')).drop 1).takeWhile (fun c => c != ']')
  else hostinfo.takeWhile (fun c => c != ':')

/-- Model of the urllib ParseResult.hostname accessor: none when the host is
empty, otherwise the LOWERCASED host. -/
def hostnameChars (netloc : List Char) : Option (List Char) :=
  let host := rawHostChars netloc
  if host.isEmpty then none else some (host.map asciiLower)

/-- Python path.rstrip(chr(47)): remove every trailing '/'. -/
def rstripSlashes (s : String) : String :=
  String.mk ((s.data.reverse.dropWhile (fun c => c == '/')).reverse)

/-- Whether a string ends with '/'. -/
def endsSlash (s : String) : Bool :=
  match s.data.reverse.head? with
  | some c => c == '/'
  | none => false

/-- url2canonical_name (src/submodule.py lines 19-31): hostname plus path with
trailing slashes stripped; the `assert url.hostname is not None` becomes an
error value. -/
def url2canonical_name (site : String) : Except String String :=
  match hostnameChars (urlparse site).netloc.data with
  | none => .error "AssertionError: url.hostname is None"
  | some h => .ok (String.mk h ++ rstripSlashes (urlparse site).path)

/- ---------------------------------------------------------------------
   pathlib.PurePath model (posix, relative paths).
   The canonical names fed to PurePath always start with a nonempty host
   that contains no '/', so the paths handled here are always relative;
   absolute-path parsing (leading '/') is out of scope.
   --------------------------------------------------------------------- -/

/-- A pure posix path as its component list: parsing drops empty and '.'
components and keeps '..' (pathlib.PurePath semantics for relative paths). -/
structure PurePath where
  parts : List String
deriving DecidableEq

/-- Parse a string into path components as PurePath does. -/
def PurePath.ofString (s : String) : PurePath :=
  ⟨(pySplit s '/').filter (fun p => !(p == "" || p == "."))⟩

/-- PurePath.parent: drop the last component; the empty path ('.') is its
own parent. -/
def PurePath.parent (p : PurePath) : PurePath := ⟨p.parts.dropLast⟩

/-- PurePath `/` operator with a relative string operand. -/
def PurePath.div (p : PurePath) (s : String) : PurePath :=
  ⟨p.parts ++ (pySplit s '/').filter (fun q => !(q == "" || q == "."))⟩

/-- str() of a relative PurePath: components joined by '/', '.' when empty. -/
def joinSlash : List String → String
  | [] => "."
  | [x] => x
  | x :: rest => x ++ "/" ++ joinSlash rest

/-- String form of a PurePath. -/
def PurePath.toStr (p : PurePath) : String := joinSlash p.parts

/-- The ValueError message raised for an out-of-tree relative submodule url
(src/submodule.py lines 55-56). -/
def outOfTreeMsg (submodule_url repo_url : String) : String :=
  "Relative submodule_url " ++ submodule_url ++ " is out of repo_url " ++ repo_url

/-- The for-loop of resolve_submodule_url (src/submodule.py lines 52-59). -/
def resolveLoop (submodule_url repo_url : String) :
    List String → PurePath → Except String PurePath
  | [], p => .ok p
  | d :: rest, p =>
    if d == ".." then
      if p = p.parent then .error (outOfTreeMsg submodule_url repo_url)
      else resolveLoop submodule_url repo_url rest p.parent
    else resolveLoop submodule_url repo_url rest (p.div d)

/-- resolve_submodule_url (src/submodule.py lines 34-60).  Exceptions
(AssertionError from the asserts, ValueError from the loop) become error
values. -/
def resolve_submodule_url (submodule_url repo_url : String) : Except String String :=
  if strHasSub submodule_url "://" then url2canonical_name submodule_url
  else if !(pyStartsWith submodule_url "../") then .error "AssertionError"
  else
    match url2canonical_name repo_url with
    | .error e => .error e
    | .ok c =>
      match resolveLoop submodule_url repo_url (pySplit submodule_url '/') (PurePath.ofString c) with
      | .error e => .error e
      | .ok p => .ok p.toStr

/- ---------------------------------------------------------------------
   Python dict model: insertion-ordered association lists with
   last-assignment-wins updates.
   --------------------------------------------------------------------- -/

/-- Whether a key is present in an association list (Python `k in d`). -/
def keyMem {α : Type} (k : String) : List (String × α) → Bool
  | [] => false
  | p :: rest => k == p.1 || keyMem k rest

/-- Python d[k] lookup; none models KeyError. -/
def dictGet {α : Type} (k : String) : List (String × α) → Option α
  | [] => none
  | p :: rest => if k == p.1 then some p.2 else dictGet k rest

/-- Python d[k] = v: overwrite in place when the key is present, otherwise
append (dicts preserve insertion order). -/
def dictInsert {α : Type} (l : List (String × α)) (k : String) (v : α) :
    List (String × α) :=
  if keyMem k l then l.map (fun p => if p.1 == k then (k, v) else p)
  else l ++ [(k, v)]

/- ---------------------------------------------------------------------
   Data model: GitModuleInfo / GitModules / ZuulProject(s).
   --------------------------------------------------------------------- -/

/-- One .gitmodules section as the source builds it (src/submodule.py
lines 83-89).  `abspath` models (gitmodules.parent / path).resolve();
symlink resolution is a filesystem effect, modelled as a plain join. -/
structure GitModuleInfo where
  path : String
  abspath : String
  submodule : String
  branch : Option String
deriving DecidableEq

/-- Canonical name -> GitModuleInfo, a Python dict. -/
abbrev GitModules := List (String × GitModuleInfo)

/-- One zuul project record: the fields the source reads. -/
structure ZuulProject where
  canonical_name : String
  src_dir : String
deriving DecidableEq

/-- Canonical name -> ZuulProject, a Python dict. -/
abbrev ZuulProjects := List (String × ZuulProject)

/- ---------------------------------------------------------------------
   configparser.ConfigParser model (default options: '#'/';' full-line
   comments, '='/':' delimiters, strict duplicate detection, lowercased
   option names, indentation-based continuation lines).  Not modelled:
   the DEFAULT section (never present in .gitmodules), inline comments
   (disabled by default) and blank-line markers inside multi-line values. -/

/-- Parsed sections: section name -> (option name -> value). -/
abbrev CfgSections := List (String × List (String × String))

/-- Parser state while reading lines. -/
structure CfgState where
  done : CfgSections
  cur : Option (String × List (String × String))
  lastOpt : Option String
  indentLevel : Nat

/-- Number of leading whitespace characters of a line. -/
def indentOf (cs : List Char) : Nat := (cs.takeWhile isSpaceChar).length

/-- Whether a stripped line is a full-line comment. -/
def isCommentStart (cs : List Char) : Bool :=
  match cs with
  | c :: _ => c == '#' || c == ';'
  | [] => false

/-- Match a section header `[name]` on a stripped line (SECTCRE:
an opening bracket, one or more non-bracket characters, a closing
bracket; trailing text is ignored). -/
def sectionHeaderOf (v : List Char) : Option String :=
  match v with
  | c :: rest =>
    if c == '[' then
      let hd := rest.takeWhile (fun x => x != ']')
      if hd.isEmpty then none
      else if hd.length < rest.length then some (String.mk hd) else none
    else none
  | [] => none

/-- Match an option line `name = value` or `name : value` (OPTCRE): the
first delimiter splits the line; the name is rstripped and lowercased
(optionxform), the value stripped.  none models ParsingError. -/
def optionLineOf (v : List Char) : Option (String × String) :=
  let name := v.takeWhile (fun c => !(c == '=' || c == ':'))
  if name.length == v.length then none
  else
    let nm := rstripWsChars name
    if nm.isEmpty then none
    else some (String.mk (nm.map asciiLower), String.mk (pyStripChars (v.drop (name.length + 1))))

/-- Append a continuation line to the value of option `o`. -/
def appendCont (opts : List (String × String)) (o : String) (v : String) :
    List (String × String) :=
  opts.map (fun p => if p.1 == o then (p.1, p.2 ++ "\n" ++ v) else p)

/-- Flush the section being built. -/
def flushCur : Option (String × List (String × String)) → CfgSections
  | some c => [c]
  | none => []

/-- Handle a non-blank, non-comment, non-continuation line. -/
def processValue (st : CfgState) (ci : Nat) (v : List Char) : Except String CfgState :=
  let st1 : CfgState := { st with indentLevel := ci }
  match sectionHeaderOf v with
  | some name =>
    if keyMem name st1.done || (match st1.cur with | some c => name == c.1 | none => false) then
      .error "DuplicateSectionError"
    else
      .ok { st1 with done := st1.done ++ flushCur st1.cur, cur := some (name, []),
                     lastOpt := none }
  | none =>
    match st1.cur with
    | none => .error "MissingSectionHeaderError"
    | some (sname, opts) =>
      match optionLineOf v with
      | none => .error "ParsingError"
      | some (nm, val) =>
        if keyMem nm opts then .error "DuplicateOptionError"
        else .ok { st1 with cur := some (sname, opts ++ [(nm, val)]),
                            lastOpt := some nm }

/-- Handle one line of the file: skip blanks and comments, treat a deeper
indented line after an option as a continuation, otherwise parse it. -/
def processLine (st : CfgState) (line : String) : Except String CfgState :=
  let stripped := pyStripChars line.data
  if stripped.isEmpty then .ok st
  else if isCommentStart stripped then .ok st
  else
    let ci := indentOf line.data
    match st.cur, st.lastOpt with
    | some (sname, opts), some o =>
      if ci > st.indentLevel then
        .ok { st with cur := some (sname, appendCont opts o (String.mk stripped)) }
      else processValue st ci stripped
    | _, _ => processValue st ci stripped

/-- Read all lines (configparser accumulates parse errors and raises at the
end of read; modelled as raising at the first). -/
def cfgReadLines : List String → CfgState → Except String CfgState
  | [], st => .ok st
  | l :: rest, st =>
    match processLine st l with
    | .error e => .error e
    | .ok st2 => cfgReadLines rest st2

/-- ConfigParser.read: a missing or unreadable file (modelled as `none`)
reads zero files and raises nothing; readable content is parsed and may
raise. -/
def cfgRead (file : Option (List String)) :
    Except String (Option CfgSections) :=
  match file with
  | none => .ok none
  | some lines =>
    match cfgReadLines lines ⟨[], none, none, 0⟩ with
    | .error e => .error e
    | .ok st => .ok (some (st.done ++ flushCur st.cur))

/-- Build one modules entry from a parsed section (loop body of
parse_gitmodules, src/submodule.py lines 82-90), in the evaluation order of
the source: cfg[section] option access can raise KeyError,
section.split()[-1] can raise IndexError, and resolving the url can raise. -/
def mkModule (dir remote : String) (sec : String × List (String × String)) :
    Except String (String × GitModuleInfo) :=
  match dictGet "path" sec.2 with
  | none => .error "KeyError: path"
  | some p =>
    match lastWsToken sec.1 with
    | none => .error "IndexError"
    | some tok =>
      match dictGet "url" sec.2 with
      | none => .error "KeyError: url"
      | some u =>
        match resolve_submodule_url u remote with
        | .error e => .error e
        | .ok cname =>
          .ok (cname, { path := p, abspath := dir ++ "/" ++ p,
                        submodule := stripQuotes tok,
                        branch := dictGet "branch" sec.2 })

/-- The for-loop of parse_gitmodules over sections, assigning each entry
into the modules dict (later identical canonical names overwrite). -/
def buildModules (dir remote : String) : CfgSections → GitModules → Except String GitModules
  | [], acc => .ok acc
  | sec :: rest, acc =>
    match mkModule dir remote sec with
    | .error e => .error e
    | .ok km => buildModules dir remote rest (dictInsert acc km.1 km.2)

/-- parse_gitmodules (src/submodule.py lines 72-91).  `dir` is the directory
holding the file (gitmodules.parent); `file` is the readable content of the
file, none when missing or unreadable; `remote` models the result of the
external collaborator get_remote_url(gitmodules.parent), which the source
calls only after a successful read. -/
def parse_gitmodules (dir : String) (file : Option (List String)) (remote : String) :
    Except String GitModules :=
  match cfgRead file with
  | .error e => .error e
  | .ok none => .ok []
  | .ok (some secs) => buildModules dir remote secs []

/-- split_modules (src/submodule.py lines 94-105).  The source intersects and
subtracts the key sets and rebuilds dicts by indexing `modules`; iteration
order of a Python set is unspecified, so the partition is modelled as two
order-preserving filters of the modules dict, which denote the same
mappings. -/
def split_modules (modules : GitModules) (projects : ZuulProjects) :
    GitModules × GitModules :=
  (modules.filter (fun m => keyMem m.1 projects),
   modules.filter (fun m => !(keyMem m.1 projects)))

/- ---------------------------------------------------------------------
   Effect model for the executor: every mutating filesystem or
   version-control operation the source performs is an `Op` issued to a
   world function, which decides success (none) or a raised exception
   (some message).  Executions return the trace of issued operations and
   the exception, if any, that propagated (aborting the rest).
   Printing is presentation detail and is not traced.
   --------------------------------------------------------------------- -/

/-- The mutating operations of src/submodule.py. -/
inductive Op where
  | rmdir (path : String)
  | move (src dst : String)
  | submoduleUpdate (repo : String) (recursive : Bool) (scopedPath : Option String)
  | gitSubmoduleInit (repo : String) (path : String)
  | absorbGitDirs (repo : String) (path : String)
  | gitCheckout (repo : String) (branch : String)
deriving DecidableEq

/-- The environment: which operations fail, and with what message. -/
abbrev World := Op → Option String

/-- Issue operations in order; a failure raises, skipping the rest. -/
def runOps (w : World) : List Op → List Op × Option String
  | [] => ([], none)
  | o :: rest =>
    match w o with
    | some e => ([o], some e)
    | none =>
      let r := runOps w rest
      (o :: r.1, r.2)

/-- update_submodule (src/submodule.py lines 126-134): one
`git submodule update --init` invocation, check=True. -/
def update_submodule (w : World) (repo_path : String) (recursive : Bool)
    (submodule_path : Option String) : List Op × Option String :=
  runOps w [Op.submoduleUpdate repo_path recursive submodule_path]

/-- update_projects (src/submodule.py lines 137-145).  `hasGitmodules`
models the read-only (src_dir/.gitmodules).exists() check; a raised
CalledProcessError aborts the remaining projects. -/
def update_projects (w : World) (projects : List ZuulProject)
    (hasGitmodules : String → Bool) (recursive : Bool) (dry_run : Bool) :
    List Op × Option String :=
  match projects with
  | [] => ([], none)
  | p :: rest =>
    if !(hasGitmodules p.src_dir) then
      update_projects w rest hasGitmodules recursive dry_run
    else if dry_run then
      update_projects w rest hasGitmodules recursive dry_run
    else
      match update_submodule w p.src_dir recursive none with
      | (tr, some e) => (tr, some e)
      | (tr, none) =>
        let r := update_projects w rest hasGitmodules recursive dry_run
        (tr ++ r.1, r.2)

/-- The mutating operations of one toReplace entry (src/submodule.py lines
171-192): rmdir, move, and when a branch is pinned also init, absorb,
checkout, and the recursive nested update. -/
def replaceOps (sp : ZuulProject) (src_absdir : String) (m : GitModuleInfo)
    (recursive : Bool) : List Op :=
  [Op.rmdir m.abspath, Op.move src_absdir m.abspath] ++
    match m.branch with
    | none => []
    | some b =>
      [Op.gitSubmoduleInit sp.src_dir m.path, Op.absorbGitDirs sp.src_dir m.path,
       Op.gitCheckout m.abspath b] ++
        (if recursive then [Op.submoduleUpdate m.abspath recursive none] else [])

/-- One iteration of the toReplace loop (src/submodule.py lines 164-192):
the project lookup happens before the dry-run guard; none of the mutating
operations run under dry-run. -/
def replaceEntry (w : World) (sp : ZuulProject) (projects : ZuulProjects)
    (cname : String) (m : GitModuleInfo) (recursive dry_run : Bool) :
    List Op × Option String :=
  match dictGet cname projects with
  | none => ([], some "KeyError")
  | some proj =>
    if dry_run then ([], none)
    else runOps w (replaceOps sp proj.src_dir m recursive)

/-- The toReplace loop; a raised exception aborts the remaining entries. -/
def replaceLoop (w : World) (sp : ZuulProject) (projects : ZuulProjects) :
    GitModules → Bool → Bool → List Op × Option String
  | [], _, _ => ([], none)
  | e :: rest, recursive, dry_run =>
    match replaceEntry w sp projects e.1 e.2 recursive dry_run with
    | (tr, some err) => (tr, some err)
    | (tr, none) =>
      let r := replaceLoop w sp projects rest recursive dry_run
      (tr ++ r.1, r.2)

/-- The toClone loop (src/submodule.py lines 194-201). -/
def cloneLoop (w : World) (sp : ZuulProject) :
    GitModules → Bool → Bool → List Op × Option String
  | [], _, _ => ([], none)
  | e :: rest, recursive, dry_run =>
    if dry_run then cloneLoop w sp rest recursive dry_run
    else
      match update_submodule w sp.src_dir recursive (some e.2.path) with
      | (tr, some err) => (tr, some err)
      | (tr, none) =>
        let r := cloneLoop w sp rest recursive dry_run
        (tr ++ r.1, r.2)

/-- update_super_project (src/submodule.py lines 148-201).  `gitmodulesFile`
is the content of src_dir/.gitmodules (none when missing or unreadable);
`remote` models get_remote_url(src_dir).  A parse exception propagates out;
an empty modules dict returns after printing; verbose printing is
presentation detail. -/
def update_super_project (w : World) (sp : ZuulProject) (projects : ZuulProjects)
    (gitmodulesFile : Option (List String)) (remote : String)
    (recursive dry_run verbose : Bool) : List Op × Option String :=
  match parse_gitmodules sp.src_dir gitmodulesFile remote with
  | .error e => ([], some e)
  | .ok modules =>
    if modules.isEmpty then ([], none)
    else
      match replaceLoop w sp projects (split_modules modules projects).1 recursive dry_run with
      | (tr1, some e) => (tr1, some e)
      | (tr1, none) =>
        let r := cloneLoop w sp (split_modules modules projects).2 recursive dry_run
        (tr1 ++ r.1, r.2)

/- ---------------------------------------------------------------------
   Claim-side predicate and concrete fixtures.
   --------------------------------------------------------------------- -/

/-- Formalisation of the spec premise for the out-of-tree claim: walking the
dot-dot segments left to right over the parent's canonical path tree reaches
a point where the current path is the tree root (its own parent), i.e. the
walk attempts to pop the parent of the root. -/
def popsOutOfTree : List String → PurePath → Bool
  | [], _ => false
  | d :: rest, p =>
    if d == ".." then
      if p = p.parent then true else popsOutOfTree rest p.parent
    else popsOutOfTree rest (p.div d)

/-- A world in which removing a directory raises OSError and every other
operation succeeds. -/
def failRmdir : World := fun o =>
  match o with
  | Op.rmdir _ => some "OSError"
  | _ => none

/-- A super project checked out at /sp. -/
def spTop : ZuulProject := { canonical_name := "h/top", src_dir := "/sp" }

/-- A known-project index containing only h/liba. -/
def projTop : ZuulProjects :=
  [("h/liba", { canonical_name := "h/liba", src_dir := "/work/liba" })]

/-- A .gitmodules declaring two submodules, one matching a known project
(h/liba) and one not (h/libb). -/
def gmLines8 : List String :=
  ["[submodule \"a\"]", "\tpath = a", "\turl = ../liba",
   "[submodule \"b\"]", "\tpath = b", "\turl = ../libb"]

/-- First of two sections resolving to the same canonical identity h/lib. -/
def secDup1 : String × List (String × String) :=
  ("submodule \"a\"", [("path", "pa"), ("url", "ssh://h/lib")])

/-- Second (later) section resolving to the same canonical identity h/lib. -/
def secDup2 : String × List (String × String) :=
  ("submodule \"b\"", [("path", "pb"), ("url", "https://h/lib"), ("branch", "dev")])

/-- The entry built from the later duplicate section. -/
def entryDup2 : GitModuleInfo :=
  { path := "pb", abspath := "/sp/pb", submodule := "b", branch := some "dev" }

/-- A .gitmodules whose two sections resolve to the same canonical
identity h/lib through different URL schemes. -/
def gmLines7 : List String :=
  ["[submodule \"a\"]", "\tpath = pa", "\turl = ssh://h/lib",
   "[submodule \"b\"]", "\tpath = pb", "\turl = https://h/lib", "\tbranch = dev"]

/-- A concrete submodule entry used to instantiate universally quantified
theorems. -/
def modA : GitModuleInfo :=
  { path := "a", abspath := "/s/a", submodule := "a", branch := none }

/-- The entry parse_gitmodules builds for section a of gmLines8. -/
def entryA8 : GitModuleInfo :=
  { path := "a", abspath := "/sp/a", submodule := "a", branch := none }

/-- The entry parse_gitmodules builds for section b of gmLines8. -/
def entryB8 : GitModuleInfo :=
  { path := "b", abspath := "/sp/b", submodule := "b", branch := none }

/- =====================================================================
   Theorems.
   ===================================================================== -/

/- Doctest checks from the source (url2canonical_name and
resolve_submodule_url docstrings). -/

theorem url2canonical_doctest1 :
    url2canonical_name "ssh://site.example.com:29418/foo/bar" =
      .ok "site.example.com/foo/bar" := rfl

theorem url2canonical_doctest2 :
    url2canonical_name "https://site.example.com/foo/" = .ok "site.example.com/foo" := rfl

theorem url2canonical_doctest3 :
    url2canonical_name "https://site.example.com/" = .ok "site.example.com" := rfl

theorem resolve_doctest1 :
    resolve_submodule_url "../../foo" "ssh://site.example.com:29418/top/bar" =
      .ok "site.example.com/foo" := rfl

theorem resolve_doctest2 :
    resolve_submodule_url "../../foo1/foo2" "ssh://site.example.com:29418/top/bar" =
      .ok "site.example.com/foo1/foo2" := rfl

theorem resolve_doctest3 :
    resolve_submodule_url "../../foo1/foo2" "ssh://site.example.com/" =
      .error (outOfTreeMsg "../../foo1/foo2" "ssh://site.example.com/") := rfl

theorem resolve_doctest4 :
    resolve_submodule_url "https://site.example.com/foo/bar" "nonsignificant" =
      .ok "site.example.com/foo/bar" := rfl

theorem parse_gitmodules_sanity :
    parse_gitmodules "/sp"
        (some ["[submodule \"a\"]", "\tpath = a", "\turl = ../liba", "\tbranch = main"])
        "ssh://h/top" =
      .ok [("h/liba", { path := "a", abspath := "/sp/a", submodule := "a",
                        branch := some "main" })] := rfl

/- Helper lemmas (association lists, takeWhile/dropWhile membership). -/

theorem keyMem_filter {α : Type} (P : String → Bool) (l : List (String × α)) (k : String) :
    keyMem k (l.filter (fun p => P p.1)) = (P k && keyMem k l) := by
  induction l with
  | nil => cases P k <;> rfl
  | cons a t ih =>
    by_cases hke : k = a.1
    · subst hke
      cases hP : P a.1 with
      | true => simp [List.filter_cons, hP, keyMem, ih]
      | false => simp [List.filter_cons, hP, keyMem, ih]
    · have hk : (k == a.1) = false := by simp [hke]
      cases hP : P a.1 with
      | true => simp [List.filter_cons, hP, keyMem, hk, ih]
      | false => simp [List.filter_cons, hP, keyMem, hk, ih]

theorem dictGet_filter {α : Type} (P : String → Bool) (l : List (String × α)) (k : String) :
    dictGet k (l.filter (fun p => P p.1)) = if P k then dictGet k l else none := by
  induction l with
  | nil => cases P k <;> rfl
  | cons a t ih =>
    by_cases hke : k = a.1
    · subst hke
      cases hP : P a.1 with
      | true => simp [List.filter_cons, hP, dictGet, ih]
      | false => simp [List.filter_cons, hP, dictGet, ih]
    · have hk : (k == a.1) = false := by simp [hke]
      cases hP : P a.1 with
      | true => simp [List.filter_cons, hP, dictGet, hk, ih]
      | false => simp [List.filter_cons, hP, dictGet, hk, ih]

/-- C1: for every modules dict and known-project index, split_modules is an
exhaustive and disjoint partition of the modules keys: no key is in both
parts, a key is in one of the parts exactly when it is a modules key, and
each part maps a key it holds to exactly the entry the modules dict held. -/
theorem split_modules_partition (modules : GitModules) (projects : ZuulProjects)
    (k : String) :
    (keyMem k (split_modules modules projects).1 &&
      keyMem k (split_modules modules projects).2) = false ∧
    (keyMem k (split_modules modules projects).1 ||
      keyMem k (split_modules modules projects).2) = keyMem k modules ∧
    dictGet k (split_modules modules projects).1
      = (if keyMem k projects then dictGet k modules else none) ∧
    dictGet k (split_modules modules projects).2
      = (if keyMem k projects then none else dictGet k modules) := by
  unfold split_modules
  dsimp only
  refine ⟨?_, ?_, ?_, ?_⟩
  · rw [keyMem_filter (fun x => keyMem x projects) modules k,
        keyMem_filter (fun x => !(keyMem x projects)) modules k]
    cases keyMem k projects <;> cases keyMem k modules <;> rfl
  · rw [keyMem_filter (fun x => keyMem x projects) modules k,
        keyMem_filter (fun x => !(keyMem x projects)) modules k]
    cases keyMem k projects <;> cases keyMem k modules <;> rfl
  · exact dictGet_filter (fun x => keyMem x projects) modules k
  · rw [dictGet_filter (fun x => !(keyMem x projects)) modules k]
    cases keyMem k projects <;> rfl

/-- C1 witness at a concrete input. -/
theorem split_modules_partition_witness :
    (keyMem "h/a" (split_modules [("h/a", modA)] [("h/a", spTop)]).1 &&
      keyMem "h/a" (split_modules [("h/a", modA)] [("h/a", spTop)]).2) = false ∧
    (keyMem "h/a" (split_modules [("h/a", modA)] [("h/a", spTop)]).1 ||
      keyMem "h/a" (split_modules [("h/a", modA)] [("h/a", spTop)]).2)
      = keyMem "h/a" [("h/a", modA)] ∧
    dictGet "h/a" (split_modules [("h/a", modA)] [("h/a", spTop)]).1
      = (if keyMem "h/a" [("h/a", spTop)] then dictGet "h/a" [("h/a", modA)] else none) ∧
    dictGet "h/a" (split_modules [("h/a", modA)] [("h/a", spTop)]).2
      = (if keyMem "h/a" [("h/a", spTop)] then none else dictGet "h/a" [("h/a", modA)]) :=
  split_modules_partition [("h/a", modA)] [("h/a", spTop)] "h/a"

/-- C2: an absolute submodule url (containing the scheme separator) resolves
to its own canonical name; the parent remote url has no influence. -/
theorem resolve_absolute_ignores_parent (submodule_url p1 p2 : String)
    (h : strHasSub submodule_url "://" = true) :
    resolve_submodule_url submodule_url p1 = resolve_submodule_url submodule_url p2 ∧
    resolve_submodule_url submodule_url p1 = url2canonical_name submodule_url := by
  unfold resolve_submodule_url
  rw [h]
  exact ⟨rfl, rfl⟩

/-- C2 witness at a concrete input. -/
theorem resolve_absolute_ignores_parent_witness :
    strHasSub "https://h/a/b" "://" = true ∧
    (resolve_submodule_url "https://h/a/b" "x" = resolve_submodule_url "https://h/a/b" "y" ∧
     resolve_submodule_url "https://h/a/b" "x" = url2canonical_name "https://h/a/b") :=
  ⟨rfl, resolve_absolute_ignores_parent "https://h/a/b" "x" "y" rfl⟩

theorem resolveLoop_out_of_tree (su ru : String) :
    ∀ (segs : List String) (p : PurePath), popsOutOfTree segs p = true →
      resolveLoop su ru segs p = .error (outOfTreeMsg su ru) := by
  intro segs
  induction segs with
  | nil => intro p h; exact absurd h (by rw [popsOutOfTree]; exact Bool.false_ne_true)
  | cons d rest ih =>
    intro p h
    unfold popsOutOfTree at h
    unfold resolveLoop
    cases hd : d == ".." with
    | true =>
      rw [hd] at h
      rw [if_pos rfl] at h ⊢
      by_cases hp : p = p.parent
      · rw [if_pos hp]
      · rw [if_neg hp] at h ⊢
        exact ih _ h
    | false =>
      rw [hd] at h
      rw [if_neg Bool.false_ne_true] at h ⊢
      exact ih _ h

/-- C3: when the dot-dot segments of a relative submodule url, walked left to
right over the parent url's canonical path, attempt to pop the parent of the
path-tree root, resolve_submodule_url raises the out-of-tree ValueError
naming both urls instead of returning a value. -/
theorem resolve_out_of_tree (su ru c : String)
    (h1 : strHasSub su "://" = false) (h2 : pyStartsWith su "../" = true)
    (h3 : url2canonical_name ru = .ok c)
    (h4 : popsOutOfTree (pySplit su '/') (PurePath.ofString c) = true) :
    resolve_submodule_url su ru = .error (outOfTreeMsg su ru) := by
  unfold resolve_submodule_url
  rw [h1, h2, h3]
  show (match resolveLoop su ru (pySplit su '/') (PurePath.ofString c) with
        | Except.error e => Except.error e
        | Except.ok p => Except.ok p.toStr : Except String String)
      = Except.error (outOfTreeMsg su ru)
  rw [resolveLoop_out_of_tree su ru _ _ h4]

/-- C3 witness: the spec's own example, dot-dot twice against a bare host. -/
theorem resolve_out_of_tree_witness :
    strHasSub "../../x" "://" = false ∧ pyStartsWith "../../x" "../" = true ∧
    url2canonical_name "ssh://h/" = .ok "h" ∧
    popsOutOfTree (pySplit "../../x" '/') (PurePath.ofString "h") = true ∧
    resolve_submodule_url "../../x" "ssh://h/" =
      .error (outOfTreeMsg "../../x" "ssh://h/") :=
  ⟨rfl, rfl, rfl, rfl, resolve_out_of_tree "../../x" "ssh://h/" "h" rfl rfl rfl rfl⟩

theorem hasSub_single (c : Char) :
    ∀ (cs : List Char), hasSub cs [c] = false → ∀ a ∈ cs, a ≠ c := by
  intro cs
  induction cs with
  | nil => intro _ a ha; cases ha
  | cons b t ih =>
    intro h a ha
    simp only [hasSub, isPre, Bool.or_eq_false_iff, Bool.and_eq_false_iff] at h
    cases ha with
    | head =>
      intro hac
      subst hac
      rcases h.1 with h1 | h1
      · simp at h1
      · simp [isPre] at h1
    | tail _ hmem => exact ih h.2 a hmem

theorem splitChars_no_sep (sep : Char) :
    ∀ (cs : List Char), (∀ a ∈ cs, a ≠ sep) → splitChars sep cs = [cs] := by
  intro cs
  induction cs with
  | nil => intro _; rfl
  | cons c rest ih =>
    intro h
    have hc : (c == sep) = false := by
      have := h c (List.mem_cons_self c rest)
      simp [this]
    have hr : splitChars sep rest = [rest] :=
      ih (fun a ha => h a (List.mem_cons_of_mem c ha))
    simp [splitChars, hc, hr]

/-- C10: when the parent remote's canonical identity is a bare host (no '/'),
a single leading dot-dot pops the host component itself and the resolver
succeeds, returning only the appended segment: an identity with no host/path
separator at all. -/
theorem resolve_pops_bare_host (ru h : String)
    (h1 : url2canonical_name ru = .ok h)
    (h2 : strHasSub h "/" = false) (h3 : h ≠ "") (h4 : h ≠ ".") :
    resolve_submodule_url "../x" ru = .ok "x" ∧ strHasSub "x" "/" = false := by
  refine ⟨?_, rfl⟩
  have hps : pySplit h '/' = [h] := by
    unfold pySplit
    rw [splitChars_no_sep '/' h.data (hasSub_single '/' h.data h2)]
    rfl
  have hof : PurePath.ofString h = ⟨[h]⟩ := by
    unfold PurePath.ofString
    rw [hps]
    simp [h3, h4]
  unfold resolve_submodule_url
  rw [h1]
  show (match resolveLoop "../x" ru (pySplit "../x" '/') (PurePath.ofString h) with
        | Except.error e => Except.error e
        | Except.ok p => Except.ok p.toStr : Except String String) = Except.ok "x"
  rw [hof]
  rfl

/-- C10 witness: the parent url ssh with a bare host. -/
theorem resolve_pops_bare_host_witness :
    url2canonical_name "ssh://h/" = .ok "h" ∧ strHasSub "h" "/" = false ∧
    "h" ≠ "" ∧ "h" ≠ "." ∧
    (resolve_submodule_url "../x" "ssh://h/" = .ok "x" ∧ strHasSub "x" "/" = false) :=
  ⟨rfl, rfl, by decide, by decide,
   resolve_pops_bare_host "ssh://h/" "h" rfl rfl (by decide) (by decide)⟩

/- Membership helper lemmas for takeWhile / dropWhile / drop / head?. -/

theorem mem_of_takeWhileZ {α : Type} (p : α → Bool) :
    ∀ (l : List α) (a : α), a ∈ l.takeWhile p → a ∈ l := by
  intro l
  induction l with
  | nil => intro a ha; cases ha
  | cons b t ih =>
    intro a ha
    rw [List.takeWhile_cons] at ha
    by_cases hb : p b = true
    · rw [if_pos hb] at ha
      cases ha with
      | head => exact List.mem_cons_self b t
      | tail _ hm => exact List.mem_cons_of_mem b (ih a hm)
    · rw [if_neg hb] at ha
      cases ha

theorem pred_of_takeWhileZ {α : Type} (p : α → Bool) :
    ∀ (l : List α) (a : α), a ∈ l.takeWhile p → p a = true := by
  intro l
  induction l with
  | nil => intro a ha; cases ha
  | cons b t ih =>
    intro a ha
    rw [List.takeWhile_cons] at ha
    by_cases hb : p b = true
    · rw [if_pos hb] at ha
      cases ha with
      | head => exact hb
      | tail _ hm => exact ih a hm
    · rw [if_neg hb] at ha
      cases ha

theorem mem_of_dropWhileZ {α : Type} (p : α → Bool) :
    ∀ (l : List α) (a : α), a ∈ l.dropWhile p → a ∈ l := by
  intro l
  induction l with
  | nil => intro a ha; cases ha
  | cons b t ih =>
    intro a ha
    rw [List.dropWhile_cons] at ha
    by_cases hb : p b = true
    · rw [if_pos hb] at ha
      exact List.mem_cons_of_mem b (ih a ha)
    · rw [if_neg hb] at ha
      exact ha

theorem mem_of_dropZ {α : Type} :
    ∀ (l : List α) (n : Nat) (a : α), a ∈ l.drop n → a ∈ l := by
  intro l
  induction l with
  | nil => intro n a ha; rw [List.drop_nil] at ha; cases ha
  | cons b t ih =>
    intro n a ha
    cases n with
    | zero => exact ha
    | succ m => exact List.mem_cons_of_mem b (ih m a ha)

theorem dropWhile_headZ {α : Type} (p : α → Bool) :
    ∀ (l : List α) (c : α) (t : List α), l.dropWhile p = c :: t → p c = false := by
  intro l
  induction l with
  | nil => intro c t h; cases h
  | cons b bt ih =>
    intro c t h
    rw [List.dropWhile_cons] at h
    by_cases hb : p b = true
    · rw [if_pos hb] at h
      exact ih c t h
    · rw [if_neg hb] at h
      injection h with h1 _
      subst h1
      exact Bool.eq_false_iff.mpr hb

theorem head?_memZ {α : Type} : ∀ (l : List α) (a : α), l.head? = some a → a ∈ l := by
  intro l a h
  cases l with
  | nil => cases h
  | cons b t =>
    rw [List.head?_cons] at h
    injection h with h
    subst h
    exact List.mem_cons_self b t

/-- The netloc produced by the url parser contains no '/'. -/
theorem netlocOf_no_slash (cs : List Char) : ∀ a ∈ (netlocOf cs).1, a ≠ '/' := by
  intro a ha
  unfold netlocOf at ha
  by_cases hp : isPre ['/', '/'] cs = true
  · rw [if_pos hp] at ha
    dsimp only at ha
    have hpred := pred_of_takeWhileZ _ _ a ha
    intro hc
    subst hc
    simp at hpred
  · rw [if_neg hp] at ha
    cases ha

/-- Every character of the raw host comes from the netloc. -/
theorem rawHost_sub (netloc : List Char) : ∀ a ∈ rawHostChars netloc, a ∈ netloc := by
  intro a ha
  unfold rawHostChars at ha
  dsimp only at ha
  have hhost : ∀ b ∈ (netloc.reverse.takeWhile (fun c => c != '@')).reverse, b ∈ netloc := by
    intro b hb
    rw [List.mem_reverse] at hb
    have hm := mem_of_takeWhileZ _ _ b hb
    rw [List.mem_reverse] at hm
    exact hm
  by_cases hbr : ((netloc.reverse.takeWhile (fun c => c != '@')).reverse).contains '[' = true
  · rw [if_pos hbr] at ha
    exact hhost a (mem_of_dropWhileZ _ _ a (mem_of_dropZ _ 1 a (mem_of_takeWhileZ _ _ a ha)))
  · rw [if_neg hbr] at ha
    exact hhost a (mem_of_takeWhileZ _ _ a ha)

/-- asciiLower maps no character other than '/' to '/'. -/
theorem asciiLower_ne_slash (c : Char) (h : c ≠ '/') : asciiLower c ≠ '/' := by
  unfold asciiLower
  split <;> first | decide | exact h

/-- C4 counterexample: with the path ending in two slashes, both are
stripped (the claim predicts exactly one removed, keeping the rest). -/
theorem url2canonical_double_slash_cex :
    url2canonical_name "https://h/foo//" = .ok "h/foo" ∧
    url2canonical_name "https://h/foo//" ≠ .ok "h/foo/" := by
  refine ⟨rfl, ?_⟩
  intro hc
  have h1 : url2canonical_name "https://h/foo//" = .ok "h/foo" := rfl
  rw [h1] at hc
  exact absurd (Except.ok.inj hc) (by decide)

/-- C4 amended: for every url with a host, the canonical name is the host
concatenated with the path after stripping ALL trailing slashes, and hence
never ends with '/' (in particular a path ending in two or more slashes
loses every one of them, not exactly one). -/
theorem url2canonical_strips_all_trailing (s : String) (h : List Char)
    (hh : hostnameChars (urlparse s).netloc.data = some h) :
    url2canonical_name s = .ok (String.mk h ++ rstripSlashes (urlparse s).path) ∧
    endsSlash (String.mk h ++ rstripSlashes (urlparse s).path) = false := by
  have hnoslash : ∀ a ∈ h, a ≠ '/' := by
    intro a ha
    unfold hostnameChars at hh
    dsimp only at hh
    by_cases he : (rawHostChars (urlparse s).netloc.data).isEmpty = true
    · rw [if_pos he] at hh
      cases hh
    · rw [if_neg he] at hh
      injection hh with hh
      subst hh
      rcases List.mem_map.mp ha with ⟨b, hb, rfl⟩
      have hbn : b ∈ (urlparse s).netloc.data := rawHost_sub _ b hb
      have hb2 : b ≠ '/' := by
        have hnl : (urlparse s).netloc.data = (netlocOf (splitScheme s.data).2).1 := rfl
        rw [hnl] at hbn
        exact netlocOf_no_slash _ b hbn
      exact asciiLower_ne_slash b hb2
  refine ⟨?_, ?_⟩
  · unfold url2canonical_name
    rw [hh]
  · unfold endsSlash
    have hdata : (String.mk h ++ rstripSlashes (urlparse s).path).data
        = h ++ ((urlparse s).path.data.reverse.dropWhile (fun c => c == '/')).reverse := rfl
    rw [hdata, List.reverse_append, List.reverse_reverse]
    cases hR : (urlparse s).path.data.reverse.dropWhile (fun c => c == '/') with
    | nil =>
      rw [List.nil_append]
      cases hH : h.reverse.head? with
      | none => rfl
      | some c =>
        have hcm : c ∈ h := List.mem_reverse.mp (head?_memZ _ _ hH)
        show (c == '/') = false
        exact Bool.eq_false_iff.mpr (fun hb => hnoslash c hcm (eq_of_beq hb))
    | cons c t =>
      rw [List.cons_append, List.head?_cons]
      show (c == '/') = false
      exact dropWhile_headZ _ _ c t hR

/-- C4 witness at the double-slash input. -/
theorem url2canonical_strips_all_trailing_witness :
    hostnameChars (urlparse "https://h/foo//").netloc.data = some ['h'] ∧
    (url2canonical_name "https://h/foo//"
        = .ok (String.mk ['h'] ++ rstripSlashes (urlparse "https://h/foo//").path) ∧
     endsSlash (String.mk ['h'] ++ rstripSlashes (urlparse "https://h/foo//").path) = false) :=
  ⟨rfl, url2canonical_strips_all_trailing "https://h/foo//" ['h'] rfl⟩

/-- C5 counterexample: two urls whose hosts differ only in case produce the
SAME canonical identity (the hostname accessor lowercases), contradicting
the claim that they differ. -/
theorem url2canonical_host_case_cex :
    url2canonical_name "ssh://HOST/a" = .ok "host/a" ∧
    url2canonical_name "ssh://host/a" = .ok "host/a" := ⟨rfl, rfl⟩

/-- C5 amended: the host is downcased, not case-preserved: any two urls whose
raw hosts agree up to letter case and whose parsed paths agree receive the
same canonical identity. -/
theorem url2canonical_downcases_host (s1 s2 : String)
    (hhost : (rawHostChars (urlparse s1).netloc.data).map asciiLower
           = (rawHostChars (urlparse s2).netloc.data).map asciiLower)
    (hpath : (urlparse s1).path = (urlparse s2).path) :
    url2canonical_name s1 = url2canonical_name s2 := by
  have hemp : (rawHostChars (urlparse s1).netloc.data).isEmpty
            = (rawHostChars (urlparse s2).netloc.data).isEmpty := by
    cases hA : rawHostChars (urlparse s1).netloc.data with
    | nil =>
      cases hB : rawHostChars (urlparse s2).netloc.data with
      | nil => rfl
      | cons b bs => rw [hA, hB] at hhost; cases hhost
    | cons a as =>
      cases hB : rawHostChars (urlparse s2).netloc.data with
      | nil => rw [hA, hB] at hhost; cases hhost
      | cons b bs => rfl
  unfold url2canonical_name hostnameChars
  dsimp only
  by_cases he : (rawHostChars (urlparse s1).netloc.data).isEmpty = true
  · have he2 : (rawHostChars (urlparse s2).netloc.data).isEmpty = true := by
      rw [← hemp]; exact he
    rw [if_pos he, if_pos he2]
  · have he2 : ¬((rawHostChars (urlparse s2).netloc.data).isEmpty = true) := by
      rw [← hemp]; exact he
    rw [if_neg he, if_neg he2, hhost, hpath]

/-- C5 witness: hosts H and h, same path. -/
theorem url2canonical_downcases_host_witness :
    (rawHostChars (urlparse "ssh://H/a").netloc.data).map asciiLower
      = (rawHostChars (urlparse "ssh://h/a").netloc.data).map asciiLower ∧
    (urlparse "ssh://H/a").path = (urlparse "ssh://h/a").path ∧
    url2canonical_name "ssh://H/a" = url2canonical_name "ssh://h/a" :=
  ⟨rfl, rfl, url2canonical_downcases_host "ssh://H/a" "ssh://h/a" rfl rfl⟩

/-- C6 counterexample: content not parseable in the key-value section format
makes parse_gitmodules raise (configparser's MissingSectionHeaderError); it
does not return the empty mapping as the claim states. -/
theorem parse_gitmodules_unparseable_cex :
    parse_gitmodules "/sp" (some ["garbage"]) "ssh://h/top"
      = .error "MissingSectionHeaderError" ∧
    parse_gitmodules "/sp" (some ["garbage"]) "ssh://h/top" ≠ .ok ([] : GitModules) := by
  refine ⟨rfl, ?_⟩
  intro hc
  have h1 : parse_gitmodules "/sp" (some ["garbage"]) "ssh://h/top"
      = .error "MissingSectionHeaderError" := rfl
  rw [h1] at hc
  cases hc

/-- C6 amended: for every directory and remote, a missing or unreadable
declaration file yields the empty mapping with no error raised, but content
that is not parseable in the expected key-value section format raises a
parse error instead of returning the empty mapping. -/
theorem parse_gitmodules_missing_empty (dir remote : String) :
    parse_gitmodules dir none remote = .ok [] ∧
    parse_gitmodules dir (some ["garbage"]) remote = .error "MissingSectionHeaderError" :=
  ⟨rfl, rfl⟩

/-- C6 witness at a concrete directory and remote. -/
theorem parse_gitmodules_missing_empty_witness :
    parse_gitmodules "/sp" none "ssh://h/top" = .ok [] ∧
    parse_gitmodules "/sp" (some ["garbage"]) "ssh://h/top"
      = .error "MissingSectionHeaderError" :=
  parse_gitmodules_missing_empty "/sp" "ssh://h/top"

/- Dict-insert lemmas for the last-write-wins claim. -/

theorem dictGet_map_overwrite {α : Type} (k : String) (v : α) :
    ∀ (l : List (String × α)), keyMem k l = true →
      dictGet k (l.map (fun p => if p.1 == k then (k, v) else p)) = some v := by
  intro l
  induction l with
  | nil => intro hm; cases hm
  | cons a t ih =>
    intro hm
    by_cases hke : k = a.1
    · subst hke
      simp [dictGet]
    · have hka : (k == a.1) = false := by simp [hke]
      have hak : (a.1 == k) = false := by simp [Ne.symm hke]
      have hmt : keyMem k t = true := by
        unfold keyMem at hm
        rw [hka] at hm
        simpa using hm
      rw [List.map_cons, if_neg (by rw [hak]; exact Bool.false_ne_true)]
      simp only [dictGet]
      rw [hka, if_neg Bool.false_ne_true]
      exact ih hmt

theorem dictGet_append_new {α : Type} (k : String) (v : α) :
    ∀ (l : List (String × α)), keyMem k l = false →
      dictGet k (l ++ [(k, v)]) = some v := by
  intro l
  induction l with
  | nil => intro _; simp [dictGet]
  | cons a t ih =>
    intro hm
    unfold keyMem at hm
    rcases Bool.or_eq_false_iff.mp hm with ⟨h1, h2⟩
    rw [List.cons_append]
    simp only [dictGet, h1]
    rw [if_neg Bool.false_ne_true]
    exact ih h2

theorem dictGet_map_other {α : Type} (k k2 : String) (v : α) (hne : k ≠ k2) :
    ∀ (l : List (String × α)),
      dictGet k (l.map (fun p => if p.1 == k2 then (k2, v) else p)) = dictGet k l := by
  intro l
  induction l with
  | nil => rfl
  | cons a t ih =>
    rw [List.map_cons]
    by_cases ha : (a.1 == k2) = true
    · rw [if_pos ha]
      have h1 : (k == k2) = false := by simp [hne]
      have h2 : (k == a.1) = false := by
        rw [eq_of_beq ha]
        exact h1
      simp only [dictGet]
      rw [h1, if_neg Bool.false_ne_true, h2, if_neg Bool.false_ne_true]
      exact ih
    · rw [if_neg ha]
      by_cases hk : (k == a.1) = true
      · simp only [dictGet]
        rw [hk, if_pos rfl, if_pos rfl]
      · have hkf : (k == a.1) = false := Bool.eq_false_iff.mpr hk
        simp only [dictGet]
        rw [hkf, if_neg Bool.false_ne_true, if_neg Bool.false_ne_true]
        exact ih

theorem dictGet_append_other {α : Type} (k k2 : String) (v : α) (hne : k ≠ k2) :
    ∀ (l : List (String × α)), dictGet k (l ++ [(k2, v)]) = dictGet k l := by
  intro l
  induction l with
  | nil => simp [dictGet, hne]
  | cons a t ih =>
    rw [List.cons_append]
    by_cases hk : (k == a.1) = true
    · simp [dictGet, hk]
    · simp [dictGet, Bool.eq_false_iff.mpr hk, ih]

theorem dictGet_insert_selfZ {α : Type} (l : List (String × α)) (k : String) (v : α) :
    dictGet k (dictInsert l k v) = some v := by
  unfold dictInsert
  by_cases hm : keyMem k l = true
  · rw [if_pos hm]
    exact dictGet_map_overwrite k v l hm
  · rw [if_neg hm]
    exact dictGet_append_new k v l (Bool.eq_false_iff.mpr hm)

theorem dictGet_insert_otherZ {α : Type} (l : List (String × α)) (k k2 : String) (v : α)
    (hne : k ≠ k2) : dictGet k (dictInsert l k2 v) = dictGet k l := by
  unfold dictInsert
  by_cases hm : keyMem k2 l = true
  · rw [if_pos hm]
    exact dictGet_map_other k k2 v hne l
  · rw [if_neg hm]
    exact dictGet_append_other k k2 v hne l

/- buildModules lemmas. -/

theorem buildModules_append (dir remote : String) :
    ∀ (l1 l2 : CfgSections) (acc res : GitModules),
      buildModules dir remote (l1 ++ l2) acc = .ok res →
      ∃ acc2, buildModules dir remote l1 acc = .ok acc2 ∧
              buildModules dir remote l2 acc2 = .ok res := by
  intro l1
  induction l1 with
  | nil => intro l2 acc res h; exact ⟨acc, rfl, h⟩
  | cons s t ih =>
    intro l2 acc res h
    rw [List.cons_append] at h
    simp only [buildModules] at h
    cases hs : mkModule dir remote s with
    | error e =>
      rw [hs] at h
      exact absurd h (by simp)
    | ok km =>
      rw [hs] at h
      have h2 : buildModules dir remote (t ++ l2) (dictInsert acc km.1 km.2) = .ok res := h
      rcases ih l2 (dictInsert acc km.1 km.2) res h2 with ⟨acc2, ha, hb⟩
      refine ⟨acc2, ?_, hb⟩
      simp only [buildModules]
      rw [hs]
      exact ha

theorem buildModules_untouched (dir remote k : String) :
    ∀ (secs : CfgSections) (acc res : GitModules),
      buildModules dir remote secs acc = .ok res →
      (∀ sec ∈ secs, ∀ k2 m2, mkModule dir remote sec = .ok (k2, m2) → k2 ≠ k) →
      dictGet k res = dictGet k acc := by
  intro secs
  induction secs with
  | nil =>
    intro acc res h _
    injection h with h
    subst h
    rfl
  | cons s t ih =>
    intro acc res h hall
    simp only [buildModules] at h
    cases hs : mkModule dir remote s with
    | error e =>
      rw [hs] at h
      exact absurd h (by simp)
    | ok km =>
      rw [hs] at h
      have hne : km.1 ≠ k :=
        hall s (List.mem_cons_self s t) km.1 km.2 (by rw [hs])
      have ht := ih (dictInsert acc km.1 km.2) res h
        (fun sec hsec => hall sec (List.mem_cons_of_mem s hsec))
      rw [ht]
      exact dictGet_insert_otherZ acc k km.1 km.2 (Ne.symm hne)

/-- C7: when the section list holds a section sec2 resolving to canonical
identity k, and no later section resolves to k, a successful parse maps k to
exactly the entry built from sec2 (last write wins), regardless of the
earlier sections that also resolved to k. -/
theorem parse_gitmodules_last_write_wins (dir remote : String)
    (secs1 secs3 : CfgSections) (sec2 : String × List (String × String))
    (acc res : GitModules) (k : String) (m2 : GitModuleInfo)
    (hrun : buildModules dir remote (secs1 ++ sec2 :: secs3) acc = .ok res)
    (hsec2 : mkModule dir remote sec2 = .ok (k, m2))
    (hlater : ∀ sec ∈ secs3, ∀ k2 m, mkModule dir remote sec = .ok (k2, m) → k2 ≠ k) :
    dictGet k res = some m2 := by
  rcases buildModules_append dir remote secs1 (sec2 :: secs3) acc res hrun with ⟨acc2, _, h2⟩
  simp only [buildModules] at h2
  rw [hsec2] at h2
  have h3 : buildModules dir remote secs3 (dictInsert acc2 k m2) = .ok res := h2
  rw [buildModules_untouched dir remote k secs3 _ res h3 hlater]
  exact dictGet_insert_selfZ acc2 k m2

/-- C7 witness: a declaration file whose two sections resolve to h/lib parses
with no error, and the mapping holds the later entry. -/
theorem parse_gitmodules_last_write_wins_witness :
    parse_gitmodules "/sp" (some gmLines7) "ssh://h/top" = .ok [("h/lib", entryDup2)] ∧
    buildModules "/sp" "ssh://h/top" ([secDup1] ++ secDup2 :: []) []
      = .ok [("h/lib", entryDup2)] ∧
    mkModule "/sp" "ssh://h/top" secDup2 = .ok ("h/lib", entryDup2) ∧
    dictGet "h/lib" [("h/lib", entryDup2)] = some entryDup2 := by
  refine ⟨rfl, rfl, rfl, ?_⟩
  exact parse_gitmodules_last_write_wins "/sp" "ssh://h/top" [secDup1] [] secDup2 []
    [("h/lib", entryDup2)] "h/lib" entryDup2 rfl rfl
    (fun sec hsec => absurd hsec (List.not_mem_nil sec))

/- Dry-run lemmas. -/

theorem replaceLoop_dry (w : World) (sp : ZuulProject) (prj : ZuulProjects) :
    ∀ (es : GitModules) (recursive : Bool),
      (replaceLoop w sp prj es recursive true).1 = [] := by
  intro es
  induction es with
  | nil => intro r; rfl
  | cons e t ih =>
    intro r
    simp only [replaceLoop, replaceEntry]
    cases dictGet e.1 prj with
    | none => rfl
    | some proj => exact ih r

theorem cloneLoop_dry (w : World) (sp : ZuulProject) :
    ∀ (es : GitModules) (recursive : Bool),
      cloneLoop w sp es recursive true = ([], none) := by
  intro es
  induction es with
  | nil => intro r; rfl
  | cons e t ih => intro r; exact ih r

theorem update_projects_dry (w : World) (hg : String → Bool) :
    ∀ (ps : List ZuulProject) (recursive : Bool),
      update_projects w ps hg recursive true = ([], none) := by
  intro ps
  induction ps with
  | nil => intro r; rfl
  | cons p t ih =>
    intro r
    cases hh : hg p.src_dir with
    | true => simp [update_projects, hh, ih r]
    | false => simp [update_projects, hh, ih r]

/-- C9: with dry-run enabled the reconciliation performs every read and
planning step but issues no mutating operation: update_projects issues
nothing and raises nothing, and the operation trace of update_super_project
is empty, for every world, project set, declaration file and remote. -/
theorem dry_run_no_mutations (w : World) (projects : List ZuulProject)
    (hg : String → Bool) (recursive : Bool) (sp : ZuulProject) (prj : ZuulProjects)
    (file : Option (List String)) (remote : String) (rec2 verbose : Bool) :
    update_projects w projects hg recursive true = ([], none) ∧
    (update_super_project w sp prj file remote rec2 true verbose).1 = [] := by
  refine ⟨update_projects_dry w hg projects recursive, ?_⟩
  unfold update_super_project
  cases hp : parse_gitmodules sp.src_dir file remote with
  | error e => rfl
  | ok modules =>
    show (if modules.isEmpty = true then (([] : List Op), (none : Option String))
          else
            match replaceLoop w sp prj (split_modules modules prj).1 rec2 true with
            | (tr1, some e) => (tr1, some e)
            | (tr1, none) =>
              (tr1 ++ (cloneLoop w sp (split_modules modules prj).2 rec2 true).1,
               (cloneLoop w sp (split_modules modules prj).2 rec2 true).2)).1 = []
    by_cases hm : modules.isEmpty = true
    · rw [if_pos hm]
    · rw [if_neg hm]
      have h1 : (replaceLoop w sp prj (split_modules modules prj).1 rec2 true).1 = [] :=
        replaceLoop_dry w sp prj _ rec2
      rw [show replaceLoop w sp prj (split_modules modules prj).1 rec2 true
            = ([], (replaceLoop w sp prj (split_modules modules prj).1 rec2 true).2) from by
            rw [← h1]]
      cases he : (replaceLoop w sp prj (split_modules modules prj).1 rec2 true).2 with
      | some e => rfl
      | none =>
        rw [cloneLoop_dry w sp (split_modules modules prj).2 rec2]
        rfl

/-- C9 witness: a dry run over the concrete fixtures, under the world whose
rmdir fails, still issues no operation. -/
theorem dry_run_no_mutations_witness :
    update_projects failRmdir [spTop] (fun _ => true) false true = ([], none) ∧
    (update_super_project failRmdir spTop projTop (some gmLines8) "ssh://h/top"
        false true false).1 = [] :=
  dry_run_no_mutations failRmdir [spTop] (fun _ => true) false spTop projTop
    (some gmLines8) "ssh://h/top" false false

/-- C8 counterexample: with one toReplace entry whose rmdir fails and one
toClone entry, the run stops at the failed rmdir: the exception propagates
and the toClone entry is never processed, contrary to the claim that other
entries are still processed and failures collected. -/
theorem replace_failure_cex :
    update_super_project failRmdir spTop projTop (some gmLines8) "ssh://h/top"
        false false false
      = ([Op.rmdir "/sp/a"], some "OSError") ∧
    Op.submoduleUpdate "/sp" false (some "b") ∉ [Op.rmdir "/sp/a"] :=
  ⟨rfl, by decide⟩

/-- C8 amended: a removal or move failure during the replace phase is not
contained to its entry: the exception aborts the loop at once, so the
remaining toReplace entries and the whole toClone phase are left unprocessed
and the single error propagates out of update_super_project. -/
theorem replace_failure_aborts (w : World) :
    (∀ (sp : ZuulProject) (prj : ZuulProjects) (e : String × GitModuleInfo)
        (rest : GitModules) (recursive : Bool) (tr : List Op) (err : String),
        replaceEntry w sp prj e.1 e.2 recursive false = (tr, some err) →
        replaceLoop w sp prj (e :: rest) recursive false = (tr, some err)) ∧
    (∀ (sp : ZuulProject) (prj : ZuulProjects) (file : Option (List String))
        (remote : String) (recursive verbose : Bool) (modules : GitModules)
        (tr : List Op) (err : String),
        parse_gitmodules sp.src_dir file remote = .ok modules →
        modules.isEmpty = false →
        replaceLoop w sp prj (split_modules modules prj).1 recursive false = (tr, some err) →
        update_super_project w sp prj file remote recursive false verbose = (tr, some err)) := by
  constructor
  · intro sp prj e rest recursive tr err h
    simp only [replaceLoop]
    rw [h]
  · intro sp prj file remote recursive verbose modules tr err hp hm hr
    unfold update_super_project
    rw [hp]
    show (if modules.isEmpty = true then (([] : List Op), (none : Option String))
          else
            match replaceLoop w sp prj (split_modules modules prj).1 recursive false with
            | (tr1, some e) => (tr1, some e)
            | (tr1, none) =>
              (tr1 ++ (cloneLoop w sp (split_modules modules prj).2 recursive false).1,
               (cloneLoop w sp (split_modules modules prj).2 recursive false).2))
        = (tr, some err)
    rw [if_neg (by rw [hm]; exact Bool.false_ne_true), hr]

/-- C8 witness: the abort theorem applied at the concrete failing run. -/
theorem replace_failure_aborts_witness :
    replaceEntry failRmdir spTop projTop "h/liba" entryA8 false false
      = ([Op.rmdir "/sp/a"], some "OSError") ∧
    parse_gitmodules spTop.src_dir (some gmLines8) "ssh://h/top"
      = .ok [("h/liba", entryA8), ("h/libb", entryB8)] ∧
    replaceLoop failRmdir spTop projTop
        [("h/liba", entryA8), ("h/libb", entryB8)] false false
      = ([Op.rmdir "/sp/a"], some "OSError") ∧
    update_super_project failRmdir spTop projTop (some gmLines8) "ssh://h/top"
        false false false
      = ([Op.rmdir "/sp/a"], some "OSError") := by
  refine ⟨rfl, rfl, ?_, ?_⟩
  · exact (replace_failure_aborts failRmdir).1 spTop projTop ("h/liba", entryA8)
      [("h/libb", entryB8)] false [Op.rmdir "/sp/a"] "OSError" rfl
  · exact (replace_failure_aborts failRmdir).2 spTop projTop (some gmLines8) "ssh://h/top"
      false false [("h/liba", entryA8), ("h/libb", entryB8)]
      [Op.rmdir "/sp/a"] "OSError" rfl rfl rfl
